import Mathlib

/-!  Shallow embedding of the cmake_graph build-config graph builder
(src/cmake_graph/script.py).  The codemodel data (projects, directories,
targets with their per-target detail documents) is embedded as plain
structures; the pipeline of `cmake_build_config_graph` is embedded as a
sequence of total functions returning `Except PyErr _`, where `PyErr`
stands for the Python exception kind a run would die with.  Fields of the
raw JSON that no code path relevant to the claims reads (sources,
compile groups, install destinations) are omitted from the embedding;
file existence checks (reading the detail documents) are outside the
model, the documents are inlined.  -/

namespace CmakeGraph

/-- Kind of Python exception an embedded operation can raise. -/
inductive PyErr
  | runtimeError
  | indexError
  | keyError
  | assertionError
  | nameError
deriving DecidableEq

/-- One entry of `codemodel["projects"]`. -/
structure ProjectModel where
  name : String
  parentIndex : Option Nat
  childIndexes : List Nat
  targetIndexes : List Nat
  directoryIndexes : List Nat
deriving DecidableEq

/-- One entry of `codemodel["directories"]`. -/
structure DirectoryModel where
  source : String
  childIndexes : List Nat
  targetIndexes : List Nat
  projectIndex : Nat
deriving DecidableEq

/-- One entry of `backtraceGraph["nodes"]` in a target detail document:
`command` is absent on the root node (`node.get("command")`), `line` is
absent on file-level nodes (reading it then is a KeyError). -/
structure BacktraceNode where
  command : Option Nat
  file : Nat
  line : Option Nat
deriving DecidableEq

/-- The `backtraceGraph` table of a target detail document. -/
structure BacktraceGraph where
  commands : List String
  files : List String
  nodes : List BacktraceNode
deriving DecidableEq

/-- The relevant fields of a target detail document (`Target._json`):
`dependencies` is the list of `dep["id"]` values, in document order,
duplicates kept. -/
structure TargetJson where
  id : String
  name : String
  type : String
  dependencies : List String
  backtraceGraph : BacktraceGraph
deriving DecidableEq

/-- One entry of `codemodel["targets"]` merged with its detail document. -/
structure TargetModel where
  projectIndex : Nat
  directoryIndex : Nat
  json : TargetJson
deriving DecidableEq

/-- One configuration of the codemodel: the input snapshot. -/
structure Codemodel where
  name : String
  projects : List ProjectModel
  directories : List DirectoryModel
  targets : List TargetModel
deriving DecidableEq

/-- Loop body of `Target.dependency_indexes`: enumerate the global target
list and collect the positions whose id occurs among the dependency ids.
`i` is the running enumeration index. -/
def dependencyIdxAux (depIds : List String) : List TargetModel → Nat → List Nat
  | [], _ => []
  | t :: rest, i =>
    if depIds.contains t.json.id then i :: dependencyIdxAux depIds rest (i + 1)
    else dependencyIdxAux depIds rest (i + 1)

/-- `Target.dependency_indexes` (script.py lines 268-274): scan
`codemodel["targets"]` in order, append index `i` whenever
`targets[i]["id"] in dep_ids`.  Note this is keyed on the global target
order, not on the order of `dep_ids`, and an id occurring twice in
`dep_ids` still contributes its index once. -/
def TargetModel.dependency_indexes (t : TargetModel) (cm : Codemodel) : List Nat :=
  dependencyIdxAux t.json.dependencies cm.targets 0

/-- `Project.full_dependence` (script.py lines 111-113):
`all(ind in deps for ind in self.target_indexes())`. -/
def ProjectModel.full_dependence (p : ProjectModel) (cm : Codemodel) (t : TargetModel) : Bool :=
  p.targetIndexes.all (fun ind => (t.dependency_indexes cm).contains ind)

/-- The code points generated by `GenerateLetters.greek_codes`:
`chain(range(0x3B1, 0x3CA), range(0x391, 0x3AA))`. -/
def greek_codes : List Nat := List.range' 0x3B1 25 ++ List.range' 0x391 25

/-- Python's `str.isalpha` restricted to the code points of
`greek_codes`: every point of both ranges is an assigned Greek letter
except U+03A2, which is unassigned in Unicode and hence not alphabetic. -/
def pyIsalpha (c : Nat) : Bool := c != 0x3A2

/-- `GenerateLetters.greek_letters` as a list of Unicode code points. -/
def greek_letters : List Nat := greek_codes.filter pyIsalpha

/-- `GenerateLetters.next` (script.py lines 43-49), with the mutable
`_index` made explicit: the guard `self._index > len(self.greek_letters)`
raises the RuntimeError, otherwise `self.greek_letters[self._index]` is
read (an IndexError when `_index` is out of range) and `_index` advances. -/
def GenerateLetters.next (index : Nat) : Except PyErr (Nat × Nat) :=
  if index > greek_letters.length then .error .runtimeError
  else
    match greek_letters.get? index with
    | none => .error .indexError
    | some letter => .ok (letter, index + 1)

/-- The `def_commands` tuple of `Target.find_cmake_define`. -/
def def_commands : List String := ["add_executable", "add_library"]

/-- The `definitions` list comprehension of `Target.find_cmake_define`:
enumerate `backtraceGraph["commands"]` and keep the defining commands. -/
def findDefinitions (bg : BacktraceGraph) : List (Nat × String) :=
  bg.commands.enum.filter (fun p => def_commands.contains p.2)

/-- `Target.find_cmake_define` (script.py lines 296-315).  An empty
`definitions` list returns None; two or more fail the
`assert len(definitions) == 1`; for exactly one, the first backtrace node
whose `command` equals the definition index is taken (`def_info` stays
unbound — a NameError — when no node matches), and its file and line are
read. -/
def find_cmake_define (bg : BacktraceGraph) : Except PyErr (Option (String × String × Nat)) :=
  match findDefinitions bg with
  | [] => .ok none
  | [(defIndex, defCom)] =>
    match bg.nodes.find? (fun n => n.command == some defIndex) with
    | none => .error .nameError
    | some defInfo =>
      match bg.files.get? defInfo.file with
      | none => .error .indexError
      | some f =>
        match defInfo.line with
        | none => .error .keyError
        | some l => .ok (some (defCom, f, l))
  | _ => .error .assertionError

/-- Python dict entry of `targets_dict`: id, the target's position in
`codemodel["targets"]` (standing for the Target object's identity), and
the target data. -/
def TargetsDict := List (String × Nat × TargetModel)

/-- Assignment `targets_dict[key] = value`: replace in place when the key
exists (Python dicts keep the original key position), append otherwise. -/
def dictInsert (d : TargetsDict) (k : String) (v : Nat × TargetModel) : TargetsDict :=
  match d with
  | [] => [(k, v)]
  | (k', v') :: rest =>
    if k' == k then (k, v) :: rest else (k', v') :: dictInsert rest k v

/-- `targets_dict[k]` as an Option. -/
def dictGet (d : TargetsDict) (k : String) : Option (Nat × TargetModel) :=
  (d.find? (fun e => e.1 == k)).map (fun e => e.2)

/-- Whether `k in targets_dict`. -/
def dictHasKey (d : TargetsDict) (k : String) : Bool :=
  d.any (fun e => e.1 == k)

/-- The dict-building part of the target loop (script.py lines 406-413):
every target is inserted, in enumeration order, before any skip check. -/
def targetsDictAux : List TargetModel → Nat → TargetsDict → TargetsDict
  | [], _, d => d
  | t :: rest, i, d => targetsDictAux rest (i + 1) (dictInsert d t.json.id (i, t))

/-- `targets_dict` after the whole target loop. -/
def targetsDict (cm : Codemodel) : TargetsDict :=
  targetsDictAux cm.targets 0 []

/-- `targets_dict.values()`. -/
def dictValues (d : TargetsDict) : List (Nat × TargetModel) :=
  d.map (fun e => e.2)

/-- The skip decision of the target loop (script.py lines 418-422):
`skip_types and re.match(skip_types, t_type)` then
`skip_names and re.match(skip_names, t_name)`.  The regex engine is
abstracted as the `m` parameter (pattern, text to match). -/
def skipTarget (skipTypes skipNames : String) (m : String → String → Bool) (t : TargetModel) : Bool :=
  (skipTypes != "" && m skipTypes t.json.type) || (skipNames != "" && m skipNames t.json.name)

/-- Failure checks run by the dependency-tooltip loop of
`Target.get_graph` (script.py lines 334-340): each resolved dependency
index is looked up in the global target list and its project in the
project list. -/
def depTooltipCheck (cm : Codemodel) : List Nat → Except PyErr Unit
  | [] => .ok ()
  | i :: rest =>
    match cm.targets.get? i with
    | none => .error .indexError
    | some dm =>
      match cm.projects.get? dm.projectIndex with
      | none => .error .indexError
      | some _ => depTooltipCheck cm rest

/-- Failure behaviour of `Target.get_graph` (first creation of a target's
node, script.py lines 317-361): `find_cmake_define` runs (its assert can
fire), then the dependency tooltip is built.  The string content of the
tooltip is not modelled, only the operations that can raise. -/
def targetNodeCheck (cm : Codemodel) (t : TargetModel) : Except PyErr Unit :=
  match find_cmake_define t.json.backtraceGraph with
  | .error e => .error e
  | .ok _ => depTooltipCheck cm (t.dependency_indexes cm)

/-- A target node placed into its directory's cluster. -/
structure PlacedNode where
  dirIdx : Nat
  tgtIdx : Nat
  name : String
deriving DecidableEq

/-- The target loop (script.py lines 406-425): each target is constructed
(its `Target.__init__` indexes `codemodel["projects"]` and
`codemodel["directories"]`, an IndexError when out of range) and inserted
into the dict; then the skip checks run; surviving targets have their
node created (`targetNodeCheck`) and placed in their directory's cluster. -/
def placeNodesAux (cm : Codemodel) (sT sN : String) (m : String → String → Bool) :
    List TargetModel → Nat → Except PyErr (List PlacedNode)
  | [], _ => .ok []
  | t :: rest, i =>
    match cm.projects.get? t.projectIndex with
    | none => .error .indexError
    | some _ =>
      match cm.directories.get? t.directoryIndex with
      | none => .error .indexError
      | some _ =>
        if skipTarget sT sN m t then placeNodesAux cm sT sN m rest (i + 1)
        else
          match targetNodeCheck cm t with
          | .error e => .error e
          | .ok _ =>
            match placeNodesAux cm sT sN m rest (i + 1) with
            | .error e => .error e
            | .ok ps => .ok (⟨t.directoryIndex, i, t.json.name⟩ :: ps)

/-- The node-placement part of `cmake_build_config_graph`. -/
def placeNodes (cm : Codemodel) (sT sN : String) (m : String → String → Bool) :
    Except PyErr (List PlacedNode) :=
  placeNodesAux cm sT sN m cm.targets 0

/-- The `Dependence` namedtuple (source, to, graph, full_dep).  `srcIdx`
and `toIdx` are the positions of the two Target objects in
`codemodel["targets"]` and stand for their Python identities; `scope` is
the graph the record's edge would be added to (`some p` = the cluster of
project `p`, `none` = the top-level graph). -/
structure Dependence where
  srcIdx : Nat
  source : TargetModel
  toIdx : Nat
  toT : TargetModel
  scope : Option Nat
  full_dep : Bool
deriving DecidableEq

/-- Inner loop of the dependency-collection pass (script.py lines
433-485) for one source target: each dependency id is looked up in
`targets_dict` (a KeyError when absent), the destination's project is
fetched, `full_dependence` is evaluated, and a `Dependence` record is
appended with `full_dep = perproject and full_dep`. -/
def mkDepsInner (cm : Codemodel) (pp : Bool) (dict : TargetsDict) (srcIdx : Nat)
    (src : TargetModel) : List String → Except PyErr (List Dependence)
  | [] => .ok []
  | depId :: rest =>
    match dictGet dict depId with
    | none => .error .keyError
    | some (toIdx, toT) =>
      match cm.projects.get? toT.projectIndex with
      | none => .error .indexError
      | some depProj =>
        match mkDepsInner cm pp dict srcIdx src rest with
        | .error e => .error e
        | .ok ds =>
          .ok (⟨srcIdx, src, toIdx, toT,
                if src.projectIndex == toT.projectIndex then some src.projectIndex
                else none,
                pp && depProj.full_dependence cm src⟩ :: ds)

/-- Outer loop of the dependency-collection pass (script.py lines
428-485): iterate `targets_dict.values()`; for each, its own project is
fetched first (line 429), then the inner loop runs. -/
def mkDepsOuter (cm : Codemodel) (pp : Bool) (dict : TargetsDict) :
    List (Nat × TargetModel) → Except PyErr (List Dependence)
  | [] => .ok []
  | (i, t) :: rest =>
    match cm.projects.get? t.projectIndex with
    | none => .error .indexError
    | some _ =>
      match mkDepsInner cm pp dict i t t.json.dependencies with
      | .error e => .error e
      | .ok ds =>
        match mkDepsOuter cm pp dict rest with
        | .error e => .error e
        | .ok ds' => .ok (ds ++ ds')

/-- The frequent-dependency loop (script.py lines 493-501): iterate the
dict values with the running letter index; a target whose usage count
(occurrences as a destination) strictly exceeds the threshold is flagged
and receives the next letter.  The result pairs each flagged target's
identity with its marker code point. -/
def assignMarkersAux (depsTo : List Nat) (th : Nat) :
    List (Nat × TargetModel) → Nat → Except PyErr (List (Nat × Nat))
  | [], _ => .ok []
  | (i, _) :: rest, li =>
    if depsTo.count i > th then
      match GenerateLetters.next li with
      | .error e => .error e
      | .ok lp =>
        match assignMarkersAux depsTo th rest lp.2 with
        | .error e => .error e
        | .ok ms => .ok ((i, lp.1) :: ms)
    else assignMarkersAux depsTo th rest li

/-- `target.get_marker()` for identity `i`: the marker assigned when `i`
was flagged, if any. -/
def markerLookup (ms : List (Nat × Nat)) (i : Nat) : Option Nat :=
  (ms.find? (fun e => e.1 == i)).map (fun e => e.2)

/-- An edge added to the output graph by the classifier loop.  `src` and
`dst` are the node names the edge is written with (`target.target_name()`
and `to.get_graph().get_name()`); `srcIdx`, `toIdx`, `full_dep` and
`depProj` record, for specification purposes only, which record produced
the edge (they are not part of the rendered edge). -/
structure GEdge where
  src : String
  dst : String
  style : String
  tooltip : String
  scope : Option Nat
  srcIdx : Nat
  toIdx : Nat
  full_dep : Bool
  depProj : Nat
deriving DecidableEq, Inhabited

/-- Mutable state of the classifier loop: the
`full_project_dependencies` set of (source identity, destination project
index) pairs, the label annotations made so far
(`target.add_dep_marker(marker)`, as (source identity, marker) in call
order), and the edges added so far. -/
structure ClassifierState where
  fpd : List (Nat × Nat)
  annots : List (Nat × Nat)
  edges : List GEdge
deriving DecidableEq

/-- The annotate condition of the classifier (script.py line 507):
`to in frequent_dependencies and not same_dir`. -/
def annotCond (frequent : List Nat) (d : Dependence) : Bool :=
  frequent.contains d.toIdx && !(d.source.directoryIndex == d.toT.directoryIndex)

/-- One iteration of the classifier loop (script.py lines 505-534).
The annotate branch appends the destination's marker to the source's
label (the assert on the marker can fire) and adds no edge.  Otherwise an
edge is emitted: destination node name is `to.get_graph().get_name()` —
creating the destination's node now when it was never placed, which runs
its node checks —, style `dashed`, unless the record is a full-project
dependency whose (source, destination project) pair was already seen, in
which case `invis`; full-project records carry the
`all targets from\n<project>` tooltip and record their pair. -/
def classifyStep (cm : Codemodel) (placedIdxs : List Nat) (frequent : List Nat)
    (ms : List (Nat × Nat)) (st : ClassifierState) (d : Dependence) :
    Except PyErr ClassifierState :=
  if annotCond frequent d then
    match markerLookup ms d.toIdx with
    | none => .error .assertionError
    | some mk => .ok ⟨st.fpd, st.annots ++ [(d.srcIdx, mk)], st.edges⟩
  else
    match (if placedIdxs.contains d.toIdx then (Except.ok () : Except PyErr Unit)
           else targetNodeCheck cm d.toT) with
    | .error e => .error e
    | .ok _ =>
      if d.full_dep then
        match cm.projects.get? d.toT.projectIndex with
        | none => .error .indexError
        | some proj =>
          if decide ((d.srcIdx, d.toT.projectIndex) ∈ st.fpd) then
            .ok ⟨st.fpd, st.annots,
                 st.edges ++ [⟨d.source.json.name, d.toT.json.name, "invis",
                               "all targets from\n" ++ proj.name, d.scope,
                               d.srcIdx, d.toIdx, true, d.toT.projectIndex⟩]⟩
          else
            .ok ⟨st.fpd ++ [(d.srcIdx, d.toT.projectIndex)], st.annots,
                 st.edges ++ [⟨d.source.json.name, d.toT.json.name, "dashed",
                               "all targets from\n" ++ proj.name, d.scope,
                               d.srcIdx, d.toIdx, true, d.toT.projectIndex⟩]⟩
      else
        .ok ⟨st.fpd, st.annots,
             st.edges ++ [⟨d.source.json.name, d.toT.json.name, "dashed", "", d.scope,
                           d.srcIdx, d.toIdx, false, d.toT.projectIndex⟩]⟩

/-- The classifier loop over all dependency records in creation order. -/
def classifyAll (cm : Codemodel) (placedIdxs : List Nat) (frequent : List Nat)
    (ms : List (Nat × Nat)) : List Dependence → ClassifierState → Except PyErr ClassifierState
  | [], st => .ok st
  | d :: rest, st =>
    match classifyStep cm placedIdxs frequent ms st d with
    | .error e => .error e
    | .ok st2 => classifyAll cm placedIdxs frequent ms rest st2

/-- Index validity enforced by the hierarchy-building loops (script.py
lines 391-404): every non-root project's `parentIndex` and every
project's `directoryIndexes` are dereferenced when its cluster is
created, and every directory's `projectIndex` is dereferenced to attach
the directory's cluster. -/
def hierarchyCheck (cm : Codemodel) : Except PyErr Unit :=
  if cm.projects.all (fun p =>
       (match p.parentIndex with
        | none => true
        | some pi => decide (pi < cm.projects.length)) &&
       p.directoryIndexes.all (fun i => decide (i < cm.directories.length))) &&
     cm.directories.all (fun dd => decide (dd.projectIndex < cm.projects.length))
  then .ok () else .error .indexError

/-- Name of the invisible per-project anchor node
(`PROJNODE_` + the pydot cluster name, which is `cluster_` + project name). -/
def projAnchorName (p : ProjectModel) : String :=
  "PROJNODE_cluster_" ++ p.name

/-- The abstract output of one run of `cmake_build_config_graph`:
the placed target nodes, the dependency records, the frequent set and
marker assignment, the label annotations, the edges, and the full node
set of the graph (one anchor per project plus the placed target nodes). -/
structure GraphOut where
  placed : List PlacedNode
  dependencies : List Dependence
  frequent : List Nat
  markers : List (Nat × Nat)
  annots : List (Nat × Nat)
  edges : List GEdge
  nodes : List String
deriving DecidableEq, Inhabited

/-- `cmake_build_config_graph` (script.py lines 364-536): hierarchy
construction, node placement, dependency collection over the dict values,
frequent-dependency marking, and the classifier loop, in program order;
the first raised exception aborts the run. -/
def buildConfigGraph (cm : Codemodel) (skipTypes skipNames : String)
    (m : String → String → Bool) (perproject : Bool) (th : Nat) :
    Except PyErr GraphOut :=
  match hierarchyCheck cm with
  | .error e => .error e
  | .ok _ =>
    match placeNodes cm skipTypes skipNames m with
    | .error e => .error e
    | .ok placed =>
      match mkDepsOuter cm perproject (targetsDict cm) (dictValues (targetsDict cm)) with
      | .error e => .error e
      | .ok deps =>
        match assignMarkersAux (deps.map (fun d => d.toIdx)) th (dictValues (targetsDict cm)) 0 with
        | .error e => .error e
        | .ok ms =>
          match classifyAll cm (placed.map (fun p => p.tgtIdx)) (ms.map (fun e => e.1))
                  ms deps ⟨[], [], []⟩ with
          | .error e => .error e
          | .ok st =>
            .ok ⟨placed, deps, ms.map (fun e => e.1), ms, st.annots, st.edges,
                 cm.projects.map projAnchorName ++ placed.map (fun p => p.name)⟩

/-- Modelled from the spec: `freqSubset(T)` of the Common-Subset
Collapser (spec section 4.4 step 1) — the intersection of a target's
resolved dependency-index set with the frequent indices; no
corresponding code exists in the source. -/
def freqSubset (cm : Codemodel) (frequent : List Nat) (t : TargetModel) : List Nat :=
  (t.dependency_indexes cm).filter (fun i => frequent.contains i)

/-- Modelled from the spec: steps 2-4 of the Common-Subset Collapser —
some recurring frequent-dependency subset has recurrence count and size
both strictly above the threshold (the spec's hub-acceptance test); no
corresponding code exists in the source. -/
def subsetQualifies (cm : Codemodel) (frequent : List Nat) (th : Nat) : Bool :=
  let fss := (cm.targets.map (freqSubset cm frequent)).filter (fun s => !s.isEmpty)
  fss.any (fun s => decide (fss.count s > th) && decide (s.length > th))

/-- Modelled from the spec: a hub node would be a synthetic node of the
output graph that is neither a target's node nor a project anchor node
(spec section 4.4 step 5); no corresponding code exists in the source. -/
def hubNodeExists (cm : Codemodel) (out : GraphOut) : Bool :=
  out.nodes.any (fun n =>
    !(decide (n ∈ cm.targets.map (fun t => t.json.name))) &&
    !(decide (n ∈ cm.projects.map projAnchorName)))

/-- A matcher standing for a regex that matches nothing. -/
def noMatch : String → String → Bool := fun _ _ => false

/-- A matcher standing for a regex that is a literal exact match. -/
def eqMatch : String → String → Bool := fun a b => a == b

/-- The successful result of a run, for naming concrete outputs. -/
def runOk (r : Except PyErr GraphOut) : GraphOut :=
  r.toOption.getD default

/-- An empty backtrace graph: no defining command, so
`find_cmake_define` returns None and the node check passes. -/
def bgEmpty : BacktraceGraph := ⟨[], [], []⟩

/-- Shorthand for building a target entry. -/
def mkTgt (pi di : Nat) (tid tname ttype : String) (deps : List String) : TargetModel :=
  ⟨pi, di, ⟨tid, tname, ttype, deps, bgEmpty⟩⟩

/-- Snapshot with one project, two directories, two source targets that
share the frequent-dependency subset of both library targets: with
threshold 1 every spec condition for creating a hub holds. -/
def cmHub : Codemodel :=
  ⟨"cfg",
   [⟨"P", none, [], [0, 1, 2, 3], [0, 1]⟩],
   [⟨"src", [], [0, 1], 0⟩, ⟨"deps", [], [2, 3], 0⟩],
   [mkTgt 0 0 "s1" "s1" "EXECUTABLE" ["d1", "d2"],
    mkTgt 0 0 "s2" "s2" "EXECUTABLE" ["d1", "d2"],
    mkTgt 0 1 "d1" "d1" "STATIC_LIBRARY" [],
    mkTgt 0 1 "d2" "d2" "STATIC_LIBRARY" []]⟩

/-- The run of `cmHub` with threshold 1 and no skipping. -/
def cmHubOut : GraphOut := runOk (buildConfigGraph cmHub "" "" noMatch true 1)

/-- Snapshot with target `X` of project `P` fully depending on project
`Q`, whose only target is `qm`. -/
def cmFull : Codemodel :=
  ⟨"cfg",
   [⟨"P", none, [], [0], [0]⟩, ⟨"Q", none, [], [1], [1]⟩],
   [⟨"p", [], [0], 0⟩, ⟨"q", [], [1], 1⟩],
   [mkTgt 0 0 "x" "X" "EXECUTABLE" ["qm"],
    mkTgt 1 1 "qm" "qm" "STATIC_LIBRARY" []]⟩

/-- Snapshot whose target `c` lists the id `a` twice among its
dependency ids; `a` resolves to the single target of that id. -/
def cmDup : Codemodel :=
  ⟨"cfg",
   [⟨"P", none, [], [0, 1], [0]⟩],
   [⟨".", [], [0, 1], 0⟩],
   [mkTgt 0 0 "a" "a" "STATIC_LIBRARY" [],
    mkTgt 0 0 "c" "c" "EXECUTABLE" ["a", "a"]]⟩

/-- The target `c` of `cmDup`. -/
def tgtDup : TargetModel := mkTgt 0 0 "c" "c" "EXECUTABLE" ["a", "a"]

/-- Snapshot with a full-project dependency record whose destination is
also frequent (with threshold 0) and lies in a different directory. -/
def cmAnnotFull : Codemodel :=
  ⟨"cfg",
   [⟨"P", none, [], [0], [0]⟩, ⟨"Q", none, [], [1], [1]⟩],
   [⟨"p", [], [0], 0⟩, ⟨"q", [], [1], 1⟩],
   [mkTgt 0 0 "x" "X" "EXECUTABLE" ["b"],
    mkTgt 1 1 "b" "b" "STATIC_LIBRARY" []]⟩

/-- The run of `cmAnnotFull` with threshold 0. -/
def cmAnnotFullOut : GraphOut := runOk (buildConfigGraph cmAnnotFull "" "" noMatch true 0)

/-- Snapshot where `X` fully depends on project `Q` with two targets, so
the second full-project edge of the pair (X, Q) gets style invis. -/
def cmTwoFull : Codemodel :=
  ⟨"cfg",
   [⟨"P", none, [], [0], [0]⟩, ⟨"Q", none, [], [1, 2], [1]⟩],
   [⟨"p", [], [0], 0⟩, ⟨"q", [], [1, 2], 1⟩],
   [mkTgt 0 0 "x" "X" "EXECUTABLE" ["b", "c"],
    mkTgt 1 1 "b" "b" "STATIC_LIBRARY" [],
    mkTgt 1 1 "c" "c" "STATIC_LIBRARY" []]⟩

/-- The run of `cmTwoFull` with threshold 5. -/
def cmTwoFullOut : GraphOut := runOk (buildConfigGraph cmTwoFull "" "" noMatch true 5)

/-- The second edge that the run of `cmTwoFull` emits. -/
def cmTwoFullEdge1 : GEdge := (cmTwoFullOut.edges.get? 1).getD default

/-- Snapshot with a UTILITY target that is the dependency of another
target, for exercising the skip patterns. -/
def cmSkip : Codemodel :=
  ⟨"cfg",
   [⟨"P", none, [], [0, 1], [0]⟩],
   [⟨".", [], [0, 1], 0⟩],
   [mkTgt 0 0 "u" "u" "UTILITY" [],
    mkTgt 0 0 "a" "a" "EXECUTABLE" ["u"]]⟩

/-- The run of `cmSkip` skipping UTILITY targets (exact-match matcher). -/
def cmSkipOut : GraphOut := runOk (buildConfigGraph cmSkip "UTILITY" "" eqMatch true 5)

/-- The run of `cmSkip` with no skip patterns. -/
def cmSkipOut0 : GraphOut := runOk (buildConfigGraph cmSkip "" "" eqMatch true 5)

/-- A backtrace graph with exactly one defining command and a matching
node. -/
def bgOneDef : BacktraceGraph :=
  ⟨["add_executable"], ["CMakeLists.txt"], [⟨some 0, 0, some 12⟩]⟩

/-- The property claimed for invis edges: every edge is dashed or invis,
and an edge is invis exactly when it is a full-project edge preceded by
an earlier emitted full-project edge with the same (source target,
destination project) pair. -/
def invisOnlyAfterDashed (edges : List GEdge) : Prop :=
  ∀ k e, edges.get? k = some e →
    (e.style = "dashed" ∨ e.style = "invis") ∧
    (e.style = "invis" ↔ e.full_dep = true ∧ ∃ j, j < k ∧ ∃ e2, edges.get? j = some e2 ∧
       e2.full_dep = true ∧ e2.srcIdx = e.srcIdx ∧ e2.depProj = e.depProj)

/-- Loop invariant tying the `full_project_dependencies` set to the
edges emitted so far. -/
def fpdMatchesEdges (st : ClassifierState) : Prop :=
  ∀ pr : Nat × Nat, pr ∈ st.fpd ↔
    ∃ e ∈ st.edges, e.full_dep = true ∧ e.srcIdx = pr.1 ∧ e.depProj = pr.2

/-- A successful run decomposes into its successful stages. -/
theorem buildConfigGraph_ok {cm : Codemodel} {sT sN : String} {m : String → String → Bool}
    {pp : Bool} {th : Nat} {out : GraphOut}
    (h : buildConfigGraph cm sT sN m pp th = .ok out) :
    ∃ placed deps ms st,
      placeNodes cm sT sN m = .ok placed ∧
      mkDepsOuter cm pp (targetsDict cm) (dictValues (targetsDict cm)) = .ok deps ∧
      assignMarkersAux (deps.map (fun d => d.toIdx)) th (dictValues (targetsDict cm)) 0 = .ok ms ∧
      classifyAll cm (placed.map (fun p => p.tgtIdx)) (ms.map (fun e => e.1)) ms deps
        ⟨[], [], []⟩ = .ok st ∧
      out = ⟨placed, deps, ms.map (fun e => e.1), ms, st.annots, st.edges,
             cm.projects.map projAnchorName ++ placed.map (fun p => p.name)⟩ := by
  unfold buildConfigGraph at h
  split at h
  next e heq => exact Except.noConfusion h
  next u heq =>
    split at h
    next e hp => exact Except.noConfusion h
    next placed hp =>
      split at h
      next e hd => exact Except.noConfusion h
      next deps hd =>
        split at h
        next e hm => exact Except.noConfusion h
        next ms hm =>
          split at h
          next e hc => exact Except.noConfusion h
          next st hc =>
            injection h with h
            exact ⟨placed, deps, ms, st, hp, hd, hm, hc, h.symm⟩

/-- C9: for every project whose targetIndexes list is empty and every
target, full_dependence returns true, regardless of the target's
dependency set. -/
theorem c9_full_dependence_vacuous (cm : Codemodel) (p : ProjectModel) (t : TargetModel)
    (h : p.targetIndexes = []) : p.full_dependence cm t = true := by
  unfold ProjectModel.full_dependence
  rw [h]
  rfl

/-- Witness for C9 at a concrete empty-target project. -/
theorem c9_witness :
    (⟨"E", none, [], [], []⟩ : ProjectModel).targetIndexes = [] ∧
    (⟨"E", none, [], [], []⟩ : ProjectModel).full_dependence cmHub
      (mkTgt 0 0 "s1" "s1" "EXECUTABLE" ["d1", "d2"]) = true :=
  ⟨rfl, c9_full_dependence_vacuous cmHub ⟨"E", none, [], [], []⟩ _ rfl⟩

/-- C7: evaluation at the failing input.  With all 49 letters consumed,
the next request evaluates `greek_letters[49]` and dies with an
IndexError; the guard `_index > len(greek_letters)` is still false there,
so the typed "ran out of letters" RuntimeError is not the error raised. -/
theorem c7_exhaustion_raises_index_error :
    greek_letters.length = 49 ∧
    GenerateLetters.next 49 = .error .indexError ∧
    PyErr.indexError ≠ PyErr.runtimeError := by
  refine ⟨by decide, rfl, by decide⟩

/-- C8 counterexample: a backtrace table with zero declaration records
makes `find_cmake_define` return successfully with no site instead of
failing with the ambiguous-definition-site error. -/
theorem c8_counterexample :
    findDefinitions bgEmpty = [] ∧ find_cmake_define bgEmpty = .ok none :=
  ⟨rfl, rfl⟩

/-- C8 amended: extraction fails with the assertion only when the table
yields two or more declaration records; zero records return no site
successfully; exactly one record (with a matching backtrace node whose
file and line resolve) returns the command, file and line. -/
theorem c8_find_cmake_define_cases (bg : BacktraceGraph) :
    (findDefinitions bg = [] → find_cmake_define bg = .ok none) ∧
    (2 ≤ (findDefinitions bg).length → find_cmake_define bg = .error .assertionError) ∧
    (∀ di com nd f l, findDefinitions bg = [(di, com)] →
      bg.nodes.find? (fun n => n.command == some di) = some nd →
      bg.files.get? nd.file = some f → nd.line = some l →
      find_cmake_define bg = .ok (some (com, f, l))) := by
  refine ⟨?_, ?_, ?_⟩
  · intro h
    unfold find_cmake_define
    rw [h]
  · intro h
    unfold find_cmake_define
    match hfd : findDefinitions bg with
    | [] => rw [hfd] at h; simp at h
    | [(i1, c1)] => rw [hfd] at h; simp at h
    | (i1, c1) :: (i2, c2) :: rest => rfl
  · intro di com nd f l h1 h2 h3 h4
    unfold find_cmake_define
    simp only [h1, h2, h3, h4]

/-- Witness for C8 at a concrete one-declaration backtrace table. -/
theorem c8_witness :
    find_cmake_define bgOneDef = .ok (some ("add_executable", "CMakeLists.txt", 12)) :=
  (c8_find_cmake_define_cases bgOneDef).2.2 0 "add_executable" ⟨some 0, 0, some 12⟩
    "CMakeLists.txt" 12 rfl rfl rfl rfl

/-- C2: evaluation at the failing input.  Target X fully depends on
project Q; the emitted edge is a full-project edge (tooltip names Q) but
its destination endpoint is the member target's own node "qm", which is
not any project's anchor node. -/
theorem c2_full_dep_edge_targets_member_node :
    (buildConfigGraph cmFull "" "" noMatch true 5).map
        (fun o => o.edges.map (fun e => (e.dst, e.style, e.tooltip, e.full_dep))) =
      .ok [("qm", "dashed", "all targets from\nQ", true)] ∧
    cmFull.projects.map projAnchorName = ["PROJNODE_cluster_P", "PROJNODE_cluster_Q"] ∧
    ¬ ("qm" ∈ cmFull.projects.map projAnchorName) :=
  ⟨rfl, rfl, by decide⟩

/-- C3 counterexample: target `c` lists the resolvable id "a" twice, yet
the resolved index list has length 1, not 2. -/
theorem c3_counterexample :
    (tgtDup.dependency_indexes cmDup) = [0] ∧
    tgtDup.json.dependencies.length = 2 ∧
    tgtDup.json.dependencies.all
      (fun did => (cmDup.targets.map (fun t => t.json.id)).contains did) = true ∧
    (tgtDup.dependency_indexes cmDup).length ≠ tgtDup.json.dependencies.length :=
  ⟨rfl, rfl, rfl, by decide⟩

/-- C1 counterexample: with threshold 1 the snapshot `cmHub` has a
frequent-dependency subset whose recurrence count and size both strictly
exceed the threshold, yet the run's output graph contains no hub node. -/
theorem c1_counterexample :
    (buildConfigGraph cmHub "" "" noMatch true 1).map
        (fun o => (subsetQualifies cmHub o.frequent 1, hubNodeExists cmHub o)) =
      .ok (true, false) := rfl

/-- C4 counterexample: the only dependency record of `cmAnnotFull` has
fullDep true, yet with threshold 0 its frequent cross-directory
destination makes the classifier take the annotate-only disposition:
one label annotation, no edge. -/
theorem c4_counterexample :
    (buildConfigGraph cmAnnotFull "" "" noMatch true 0).map
        (fun o => (o.dependencies.map (fun d => d.full_dep), o.annots, o.edges)) =
      .ok ([true], [(0, 945)], []) := rfl

/-- A successful classifier step is one of four dispositions: annotate
(no edge), invis full-project edge, first dashed full-project edge
(recording its pair), or plain dashed edge. -/
theorem classifyStep_cases (cm : Codemodel) (placedIdxs frequent : List Nat)
    (ms : List (Nat × Nat)) (st : ClassifierState) (d : Dependence) (st2 : ClassifierState)
    (hs : classifyStep cm placedIdxs frequent ms st d = .ok st2) :
    (annotCond frequent d = true ∧ ∃ mk, markerLookup ms d.toIdx = some mk ∧
       st2 = ⟨st.fpd, st.annots ++ [(d.srcIdx, mk)], st.edges⟩) ∨
    (annotCond frequent d = false ∧ d.full_dep = true ∧
       ∃ proj, cm.projects.get? d.toT.projectIndex = some proj ∧
         (((d.srcIdx, d.toT.projectIndex) ∈ st.fpd ∧
           st2 = ⟨st.fpd, st.annots, st.edges ++
             [⟨d.source.json.name, d.toT.json.name, "invis",
               "all targets from\n" ++ proj.name, d.scope, d.srcIdx, d.toIdx, true,
               d.toT.projectIndex⟩]⟩) ∨
          ((d.srcIdx, d.toT.projectIndex) ∉ st.fpd ∧
           st2 = ⟨st.fpd ++ [(d.srcIdx, d.toT.projectIndex)], st.annots, st.edges ++
             [⟨d.source.json.name, d.toT.json.name, "dashed",
               "all targets from\n" ++ proj.name, d.scope, d.srcIdx, d.toIdx, true,
               d.toT.projectIndex⟩]⟩))) ∨
    (annotCond frequent d = false ∧ d.full_dep = false ∧
       st2 = ⟨st.fpd, st.annots, st.edges ++
         [⟨d.source.json.name, d.toT.json.name, "dashed", "", d.scope, d.srcIdx, d.toIdx,
           false, d.toT.projectIndex⟩]⟩) := by
  unfold classifyStep at hs
  split at hs
  next hac =>
    split at hs
    next hml => exact Except.noConfusion hs
    next mk hml =>
      injection hs with hs
      exact Or.inl ⟨hac, mk, hml, hs.symm⟩
  next hac =>
    rw [Bool.not_eq_true] at hac
    split at hs
    next e hck => exact Except.noConfusion hs
    next u hck =>
      split at hs
      next hfd =>
        split at hs
        next hpj => exact Except.noConfusion hs
        next proj hpj =>
          split at hs
          next hin =>
            injection hs with hs
            exact Or.inr (Or.inl ⟨hac, hfd, proj, hpj, Or.inl ⟨of_decide_eq_true hin, hs.symm⟩⟩)
          next hin =>
            injection hs with hs
            exact Or.inr (Or.inl ⟨hac, hfd, proj, hpj,
              Or.inr ⟨fun hmem => hin (decide_eq_true hmem), hs.symm⟩⟩)
      next hfd =>
        rw [Bool.not_eq_true] at hfd
        injection hs with hs
        exact Or.inr (Or.inr ⟨hac, hfd, hs.symm⟩)

/-- Every processed dependency record contributes exactly one edge or
one annotation. -/
theorem classifyAll_len (cm : Codemodel) (placedIdxs frequent : List Nat)
    (ms : List (Nat × Nat)) :
    ∀ ds st st', classifyAll cm placedIdxs frequent ms ds st = .ok st' →
      st'.edges.length + st'.annots.length =
        st.edges.length + st.annots.length + ds.length := by
  intro ds
  induction ds with
  | nil =>
    intro st st' h
    unfold classifyAll at h
    injection h with h
    subst h
    simp
  | cons d rest ih =>
    intro st st' h
    unfold classifyAll at h
    split at h
    next e hs => exact Except.noConfusion h
    next st2 hs =>
      have hrec := ih st2 st' h
      rcases classifyStep_cases cm placedIdxs frequent ms st d st2 hs with
        ⟨_, mk, _, h2⟩ | ⟨_, _, proj, _, (⟨_, h2⟩ | ⟨_, h2⟩)⟩ | ⟨_, _, h2⟩ <;>
      · subst h2
        simp only [List.length_append, List.length_cons, List.length_nil] at hrec ⊢
        omega

/-- Every node placed by the target loop carries the name of one of the
enumerated targets. -/
theorem placeNodesAux_names (cm : Codemodel) (sT sN : String) (m : String → String → Bool) :
    ∀ l i ps, placeNodesAux cm sT sN m l i = .ok ps →
      ∀ p ∈ ps, p.name ∈ l.map (fun t => t.json.name) := by
  intro l
  induction l with
  | nil =>
    intro i ps h p hp
    unfold placeNodesAux at h
    injection h with h
    subst h
    simp at hp
  | cons t rest ih =>
    intro i ps h p hp
    unfold placeNodesAux at h
    split at h
    next hpr => exact Except.noConfusion h
    next v hpr =>
      split at h
      next hdr => exact Except.noConfusion h
      next v2 hdr =>
        split at h
        next hskip =>
          exact List.mem_cons_of_mem _ (ih (i + 1) ps h p hp)
        next hskip =>
          split at h
          next e h3 => exact Except.noConfusion h
          next u h3 =>
            split at h
            next e h4 => exact Except.noConfusion h
            next ps' h4 =>
              injection h with h
              subst h
              cases hp with
              | head => exact List.mem_cons_self _ _
              | tail _ hp => exact List.mem_cons_of_mem _ (ih (i + 1) ps' h4 p hp)

/-- C1 amended: no run ever creates a hub node — every node of the
output graph is a project anchor or a placed target's node, whatever the
snapshot and threshold — and every dependency record is rendered as
exactly one label annotation or one edge. -/
theorem c1_no_hub_ever (cm : Codemodel) (sT sN : String) (m : String → String → Bool)
    (pp : Bool) (th : Nat) (out : GraphOut)
    (h : buildConfigGraph cm sT sN m pp th = .ok out) :
    hubNodeExists cm out = false ∧
    out.edges.length + out.annots.length = out.dependencies.length := by
  obtain ⟨placed, deps, ms, st, hp, hd, hm, hc, rfl⟩ := buildConfigGraph_ok h
  constructor
  · unfold hubNodeExists
    rw [List.any_eq_false]
    intro n hn
    rcases List.mem_append.mp hn with hn | hn
    · simp [hn]
    · obtain ⟨p, hpmem, rfl⟩ := List.mem_map.mp hn
      have := placeNodesAux_names cm sT sN m cm.targets 0 placed hp p hpmem
      simp [this]
  · have hlen := classifyAll_len cm (placed.map (fun p => p.tgtIdx))
      (ms.map (fun e => e.1)) ms deps ⟨[], [], []⟩ st hc
    simpa using hlen

/-- Witness for C1 amended at the run of `cmHub`. -/
theorem c1_witness :
    hubNodeExists cmHub cmHubOut = false ∧
    cmHubOut.edges.length + cmHubOut.annots.length = cmHubOut.dependencies.length :=
  c1_no_hub_ever cmHub "" "" noMatch true 1 cmHubOut rfl

/-- The classifier's annotations are exactly the records satisfying the
annotate condition, in order, and its edges correspond one-to-one, in
order, to the records that fail it. -/
theorem classifyAll_annots_edges (cm : Codemodel) (placedIdxs frequent : List Nat)
    (ms : List (Nat × Nat)) :
    ∀ ds st st', classifyAll cm placedIdxs frequent ms ds st = .ok st' →
      st'.annots = st.annots ++ (ds.filter (fun d => annotCond frequent d)).map
          (fun d => (d.srcIdx, (markerLookup ms d.toIdx).getD 0)) ∧
      st'.edges.map (fun e => (e.srcIdx, e.toIdx)) =
        st.edges.map (fun e => (e.srcIdx, e.toIdx)) ++
          (ds.filter (fun d => !annotCond frequent d)).map (fun d => (d.srcIdx, d.toIdx)) := by
  intro ds
  induction ds with
  | nil =>
    intro st st' h
    unfold classifyAll at h
    injection h with h
    subst h
    simp
  | cons d rest ih =>
    intro st st' h
    unfold classifyAll at h
    split at h
    next e hs => exact Except.noConfusion h
    next st2 hs =>
      obtain ⟨ha, he⟩ := ih st2 st' h
      rcases classifyStep_cases cm placedIdxs frequent ms st d st2 hs with
        ⟨hc1, mk, hml, h2⟩ | ⟨hc1, _, proj, _, (⟨_, h2⟩ | ⟨_, h2⟩)⟩ | ⟨hc1, _, h2⟩
      · subst h2
        simp only [List.filter_cons, hc1, Bool.not_true, ite_true, ite_false,
          List.map_cons] at ha he ⊢
        constructor
        · rw [ha, hml]
          simp [List.append_assoc]
        · exact he
      · subst h2
        simp only [List.filter_cons, hc1, Bool.not_false, ite_true, ite_false,
          List.map_cons] at ha he ⊢
        refine ⟨ha, ?_⟩
        rw [he]
        simp [List.append_assoc]
      · subst h2
        simp only [List.filter_cons, hc1, Bool.not_false, ite_true, ite_false,
          List.map_cons] at ha he ⊢
        refine ⟨ha, ?_⟩
        rw [he]
        simp [List.append_assoc]
      · subst h2
        simp only [List.filter_cons, hc1, Bool.not_false, ite_true, ite_false,
          List.map_cons] at ha he ⊢
        refine ⟨ha, ?_⟩
        rw [he]
        simp [List.append_assoc]

/-- C4 amended: the annotate-only disposition is taken exactly for the
records whose destination is frequent and in a different directory than
the source — the record's fullDep flag plays no role: the run's
annotations are exactly those records, in order, and the edges are
exactly the remaining records, in order. -/
theorem c4_annotate_iff_frequent_crossdir (cm : Codemodel) (sT sN : String)
    (m : String → String → Bool) (pp : Bool) (th : Nat) (out : GraphOut)
    (h : buildConfigGraph cm sT sN m pp th = .ok out) :
    out.annots = (out.dependencies.filter (fun d => annotCond out.frequent d)).map
        (fun d => (d.srcIdx, (markerLookup out.markers d.toIdx).getD 0)) ∧
    out.edges.map (fun e => (e.srcIdx, e.toIdx)) =
      (out.dependencies.filter (fun d => !annotCond out.frequent d)).map
        (fun d => (d.srcIdx, d.toIdx)) := by
  obtain ⟨placed, deps, ms, st, hp, hd, hm, hc, rfl⟩ := buildConfigGraph_ok h
  have := classifyAll_annots_edges cm (placed.map (fun p => p.tgtIdx))
    (ms.map (fun e => e.1)) ms deps ⟨[], [], []⟩ st hc
  simpa using this

/-- Witness for C4 amended at the run of `cmAnnotFull`. -/
theorem c4_witness :
    cmAnnotFullOut.annots =
      (cmAnnotFullOut.dependencies.filter
          (fun d => annotCond cmAnnotFullOut.frequent d)).map
        (fun d => (d.srcIdx, (markerLookup cmAnnotFullOut.markers d.toIdx).getD 0)) ∧
    cmAnnotFullOut.edges.map (fun e => (e.srcIdx, e.toIdx)) =
      (cmAnnotFullOut.dependencies.filter
          (fun d => !annotCond cmAnnotFullOut.frequent d)).map
        (fun d => (d.srcIdx, d.toIdx)) :=
  c4_annotate_iff_frequent_crossdir cmAnnotFull "" "" noMatch true 0 cmAnnotFullOut rfl

/-- Appending an edge that is dashed-or-invis, and invis exactly when an
emitted full-project edge with its pair exists, preserves the invis
property. -/
theorem invisOnlyAfterDashed_append (edges : List GEdge) (e1 : GEdge)
    (hold : invisOnlyAfterDashed edges)
    (hstyle : e1.style = "dashed" ∨ e1.style = "invis")
    (hiff : e1.style = "invis" ↔ e1.full_dep = true ∧ ∃ e2 ∈ edges, e2.full_dep = true ∧
       e2.srcIdx = e1.srcIdx ∧ e2.depProj = e1.depProj) :
    invisOnlyAfterDashed (edges ++ [e1]) := by
  intro k e hk
  have hklen : k < edges.length + 1 := by
    have := List.get?_eq_some.mp hk
    simpa using this.1
  rcases Nat.lt_or_ge k edges.length with hlt | hge
  · rw [List.get?_append hlt] at hk
    obtain ⟨hs, hiffold⟩ := hold k e hk
    refine ⟨hs, ?_⟩
    rw [hiffold]
    constructor
    · rintro ⟨hfd, j, hj, e2, hj2, he2⟩
      exact ⟨hfd, j, hj, e2, by rw [List.get?_append (lt_trans hj hlt)]; exact hj2, he2⟩
    · rintro ⟨hfd, j, hj, e2, hj2, he2⟩
      have hjlt : j < edges.length := lt_trans hj hlt
      rw [List.get?_append hjlt] at hj2
      exact ⟨hfd, j, hj, e2, hj2, he2⟩
  · have hke : k = edges.length := by omega
    subst hke
    rw [List.get?_concat_length] at hk
    injection hk with hk
    subst hk
    refine ⟨hstyle, ?_⟩
    rw [hiff]
    constructor
    · rintro ⟨hfd, e2, hmem, he2⟩
      obtain ⟨j, hj2⟩ := List.mem_iff_get?.mp hmem
      have hjlt : j < edges.length := by
        have := List.get?_eq_some.mp hj2
        exact this.1
      exact ⟨hfd, j, hjlt, e2, by rw [List.get?_append hjlt]; exact hj2, he2⟩
    · rintro ⟨hfd, j, hj, e2, hj2, he2⟩
      rw [List.get?_append hj] at hj2
      exact ⟨hfd, e2, List.get?_mem hj2, he2⟩

/-- The classifier preserves the pairing invariant and the invis
property. -/
theorem classifyAll_invis (cm : Codemodel) (placedIdxs frequent : List Nat)
    (ms : List (Nat × Nat)) :
    ∀ ds st st', classifyAll cm placedIdxs frequent ms ds st = .ok st' →
      fpdMatchesEdges st → invisOnlyAfterDashed st.edges →
      fpdMatchesEdges st' ∧ invisOnlyAfterDashed st'.edges := by
  intro ds
  induction ds with
  | nil =>
    intro st st' h hfpd hinv
    unfold classifyAll at h
    injection h with h
    subst h
    exact ⟨hfpd, hinv⟩
  | cons d rest ih =>
    intro st st' h hfpd hinv
    unfold classifyAll at h
    split at h
    next e hs => exact Except.noConfusion h
    next st2 hs =>
    refine ih st2 st' h ?_ ?_
    all_goals
      rcases classifyStep_cases cm placedIdxs frequent ms st d st2 hs with
        ⟨hc1, mk, hml, h2⟩ | ⟨hc1, _, proj, _, (⟨hin, h2⟩ | ⟨hin, h2⟩)⟩ | ⟨hc1, _, h2⟩ <;>
      subst h2
    -- fpdMatchesEdges st2, four cases
    · exact hfpd
    · intro pr
      rw [hfpd pr]
      constructor
      · rintro ⟨e2, hmem, he2⟩
        exact ⟨e2, List.mem_append_left _ hmem, he2⟩
      · rintro ⟨e2, hmem, he2⟩
        rcases List.mem_append.mp hmem with hmem | hmem
        · exact ⟨e2, hmem, he2⟩
        · rw [List.mem_singleton] at hmem
          subst hmem
          obtain ⟨_, h1, h2⟩ := he2
          have : pr = (d.srcIdx, d.toT.projectIndex) := by
            cases pr
            simp_all
          rw [this]
          exact (hfpd _).mp hin
    · intro pr
      constructor
      · intro hmem
        rcases List.mem_append.mp hmem with hmem | hmem
        · obtain ⟨e2, hm2, he2⟩ := (hfpd pr).mp hmem
          exact ⟨e2, List.mem_append_left _ hm2, he2⟩
        · rw [List.mem_singleton] at hmem
          subst hmem
          exact ⟨_, List.mem_append_right _ (List.mem_singleton_self _), rfl, rfl, rfl⟩
      · rintro ⟨e2, hmem, he2⟩
        rcases List.mem_append.mp hmem with hmem | hmem
        · exact List.mem_append_left _ ((hfpd pr).mpr ⟨e2, hmem, he2⟩)
        · rw [List.mem_singleton] at hmem
          subst hmem
          obtain ⟨_, h1, h2⟩ := he2
          have : pr = (d.srcIdx, d.toT.projectIndex) := by
            cases pr
            simp_all
          rw [this]
          exact List.mem_append_right _ (List.mem_singleton_self _)
    · intro pr
      rw [hfpd pr]
      constructor
      · rintro ⟨e2, hmem, he2⟩
        exact ⟨e2, List.mem_append_left _ hmem, he2⟩
      · rintro ⟨e2, hmem, he2⟩
        rcases List.mem_append.mp hmem with hmem | hmem
        · exact ⟨e2, hmem, he2⟩
        · rw [List.mem_singleton] at hmem
          subst hmem
          obtain ⟨hfd, _, _⟩ := he2
          exact absurd hfd (by simp)
    -- invisOnlyAfterDashed st2.edges, four cases
    · exact hinv
    · refine invisOnlyAfterDashed_append _ _ hinv (Or.inr rfl) ?_
      constructor
      · intro _
        obtain ⟨e2, hmem, he2⟩ := (hfpd _).mp hin
        exact ⟨rfl, e2, hmem, he2⟩
      · intro _
        rfl
    · refine invisOnlyAfterDashed_append _ _ hinv (Or.inl rfl) ?_
      constructor
      · intro hdi
        exact absurd hdi (by simp)
      · rintro ⟨_, e2, hmem, he2⟩
        exact absurd ((hfpd _).mpr ⟨e2, hmem, he2⟩) hin
    · refine invisOnlyAfterDashed_append _ _ hinv (Or.inl rfl) ?_
      constructor
      · intro hdi
        exact absurd hdi (by simp)
      · rintro ⟨hfd, _⟩
        exact absurd hfd (by simp)

/-- C5: in every run, every emitted edge is dashed or invis, and an edge
is invis exactly when it is a full-project edge and an earlier edge of
the same run was emitted as a full-project edge for the identical
(source target, destination project) pair — so the first full-project
edge of each pair is always dashed. -/
theorem c5_invis_only_after_dashed (cm : Codemodel) (sT sN : String)
    (m : String → String → Bool) (pp : Bool) (th : Nat) (out : GraphOut)
    (h : buildConfigGraph cm sT sN m pp th = .ok out) :
    invisOnlyAfterDashed out.edges := by
  obtain ⟨placed, deps, ms, st, hp, hd, hm, hc, rfl⟩ := buildConfigGraph_ok h
  have := classifyAll_invis cm (placed.map (fun p => p.tgtIdx)) (ms.map (fun e => e.1))
    ms deps ⟨[], [], []⟩ st hc (by intro pr; simp [fpdMatchesEdges]) (by intro k e hk; simp at hk)
  exact this.2

/-- Witness for C5: the second edge of the `cmTwoFull` run is invis, so
the theorem yields an earlier full-project edge of the same pair. -/
theorem c5_witness :
    cmTwoFullEdge1.full_dep = true ∧ ∃ j, j < 1 ∧
      ∃ e2, cmTwoFullOut.edges.get? j = some e2 ∧ e2.full_dep = true ∧
        e2.srcIdx = cmTwoFullEdge1.srcIdx ∧ e2.depProj = cmTwoFullEdge1.depProj :=
  ((c5_invis_only_after_dashed cmTwoFull "" "" noMatch true 5 cmTwoFullOut rfl 1
      cmTwoFullEdge1 rfl).2).mp rfl

/-- The marker alphabet holds pairwise distinct code points. -/
theorem greek_letters_nodup : greek_letters.Nodup := by decide

/-- A successful letter request returns the letter at the running index
and advances the index by one. -/
theorem next_ok (li letter li2 : Nat) (h : GenerateLetters.next li = .ok (letter, li2)) :
    greek_letters.get? li = some letter ∧ li2 = li + 1 := by
  unfold GenerateLetters.next at h
  split at h
  next => exact Except.noConfusion h
  next =>
    split at h
    next hg => exact Except.noConfusion h
    next lt hg =>
      injection h with h
      injection h with h1 h2
      exact ⟨h1 ▸ hg, h2.symm⟩

/-- The letters assigned by the frequent-dependency loop form a sublist
of the alphabet from the running index on. -/
theorem assignMarkers_sublist (depsTo : List Nat) (th : Nat) :
    ∀ vals li ms, assignMarkersAux depsTo th vals li = .ok ms →
      (ms.map (fun e => e.2)).Sublist (greek_letters.drop li) := by
  intro vals
  induction vals with
  | nil =>
    intro li ms h
    unfold assignMarkersAux at h
    injection h with h
    subst h
    simp
  | cons v rest ih =>
    intro li ms h
    obtain ⟨i, t⟩ := v
    unfold assignMarkersAux at h
    split at h
    next hcnt =>
      split at h
      next e hg => exact Except.noConfusion h
      next lp hg =>
        split at h
        next e h2 => exact Except.noConfusion h
        next ms' h2 =>
          injection h with h
          subst h
          obtain ⟨hget, hadv⟩ := next_ok li lp.1 lp.2 (by rw [hg])
          obtain ⟨hlt, hel⟩ := List.get?_eq_some.mp hget
          have hd : greek_letters.drop li = lp.1 :: greek_letters.drop (li + 1) := by
            rw [List.drop_eq_getElem_cons hlt]
            simp_all
          rw [List.map_cons, hd]
          rw [hadv] at h2
          exact List.Sublist.cons₂ _ (ih (li + 1) ms' h2)
    next hcnt => exact ih li ms h

/-- C6: within one run, marker assignment is injective — two distinct
flagged targets always receive different marker symbols. -/
theorem c6_markers_injective (cm : Codemodel) (sT sN : String) (m : String → String → Bool)
    (pp : Bool) (th : Nat) (out : GraphOut)
    (h : buildConfigGraph cm sT sN m pp th = .ok out) :
    ∀ a ∈ out.markers, ∀ b ∈ out.markers, a.1 ≠ b.1 → a.2 ≠ b.2 := by
  obtain ⟨placed, deps, ms, st, hp, hd, hm, hc, rfl⟩ := buildConfigGraph_ok h
  intro a ha b hb hne heq
  have hsub := assignMarkers_sublist (deps.map (fun d => d.toIdx)) th
    (dictValues (targetsDict cm)) 0 ms hm
  rw [List.drop_zero] at hsub
  have hnodup : (ms.map (fun e => e.2)).Nodup := hsub.nodup greek_letters_nodup
  exact hne (congrArg Prod.fst (List.inj_on_of_nodup_map hnodup ha hb heq))

/-- Witness for C6 at the run of `cmHub`: its two frequent targets carry
the distinct markers 945 (α) and 946 (β). -/
theorem c6_witness :
    (2, 945) ∈ cmHubOut.markers ∧ (3, 946) ∈ cmHubOut.markers ∧ (945 : Nat) ≠ 946 :=
  ⟨by decide, by decide,
   c6_markers_injective cmHub "" "" noMatch true 1 cmHubOut rfl
     (2, 945) (by decide) (3, 946) (by decide) (by decide)⟩

/-- Membership in the index-resolution loop: the collected indexes are
exactly the enumerated positions (offset by the running index) whose
target id occurs among the dependency ids. -/
theorem dependencyIdxAux_mem (depIds : List String) :
    ∀ (l : List TargetModel) (n i : Nat),
      i ∈ dependencyIdxAux depIds l n ↔
        ∃ k tm, l.get? k = some tm ∧ i = n + k ∧ depIds.contains tm.json.id = true := by
  intro l
  induction l with
  | nil =>
    intro n i
    unfold dependencyIdxAux
    simp
  | cons t rest ih =>
    intro n i
    unfold dependencyIdxAux
    by_cases hc : depIds.contains t.json.id
    · rw [if_pos hc]
      simp only [List.mem_cons, ih (n + 1)]
      constructor
      · rintro (rfl | ⟨k, tm, hk, rfl, hc2⟩)
        · exact ⟨0, t, rfl, by omega, hc⟩
        · exact ⟨k + 1, tm, hk, by omega, hc2⟩
      · rintro ⟨k, tm, hk, rfl, hc2⟩
        cases k with
        | zero =>
          left
          omega
        | succ k' => exact Or.inr ⟨k', tm, hk, by omega, hc2⟩
    · rw [if_neg hc]
      rw [ih (n + 1)]
      constructor
      · rintro ⟨k, tm, hk, rfl, hc2⟩
        exact ⟨k + 1, tm, hk, by omega, hc2⟩
      · rintro ⟨k, tm, hk, rfl, hc2⟩
        cases k with
        | zero =>
          injection hk with hk
          subst hk
          exact absurd hc2 hc
        | succ k' => exact ⟨k', tm, hk, by omega, hc2⟩

/-- Every collected index is at least the running enumeration index. -/
theorem dependencyIdxAux_lb (depIds : List String) :
    ∀ (l : List TargetModel) (n : Nat), ∀ i ∈ dependencyIdxAux depIds l n, n ≤ i := by
  intro l
  induction l with
  | nil =>
    intro n i hi
    unfold dependencyIdxAux at hi
    simp at hi
  | cons t rest ih =>
    intro n i hi
    unfold dependencyIdxAux at hi
    by_cases hc : depIds.contains t.json.id
    · rw [if_pos hc] at hi
      rcases List.mem_cons.mp hi with rfl | hi
      · exact Nat.le_refl _
      · exact Nat.le_of_succ_le (ih (n + 1) i hi)
    · rw [if_neg hc] at hi
      exact Nat.le_of_succ_le (ih (n + 1) i hi)

/-- The collected indexes are strictly increasing. -/
theorem dependencyIdxAux_pairwise (depIds : List String) :
    ∀ (l : List TargetModel) (n : Nat),
      (dependencyIdxAux depIds l n).Pairwise (· < ·) := by
  intro l
  induction l with
  | nil =>
    intro n
    unfold dependencyIdxAux
    exact List.Pairwise.nil
  | cons t rest ih =>
    intro n
    unfold dependencyIdxAux
    by_cases hc : depIds.contains t.json.id
    · rw [if_pos hc]
      refine List.Pairwise.cons ?_ (ih (n + 1))
      intro b hb
      exact Nat.lt_of_succ_le (dependencyIdxAux_lb depIds rest (n + 1) b hb)
    · rw [if_neg hc]
      exact ih (n + 1)

/-- A successful run of the dependency-record loop for one source target
creates exactly one record per dependency id and only after resolving
every id in the dict. -/
theorem mkDepsInner_ok (cm : Codemodel) (pp : Bool) (dict : TargetsDict) (si : Nat)
    (src : TargetModel) :
    ∀ ids ds, mkDepsInner cm pp dict si src ids = .ok ds →
      ds.length = ids.length ∧ ∀ did ∈ ids, dictGet dict did ≠ none := by
  intro ids
  induction ids with
  | nil =>
    intro ds h
    unfold mkDepsInner at h
    injection h with h
    subst h
    simp
  | cons did rest ih =>
    intro ds h
    unfold mkDepsInner at h
    split at h
    next hg => exact Except.noConfusion h
    next v hg =>
      split at h
      next hpj => exact Except.noConfusion h
      next proj hpj =>
        split at h
        next e h2 => exact Except.noConfusion h
        next ds' h2 =>
          injection h with h
          subst h
          obtain ⟨hlen, hres⟩ := ih ds' h2
          refine ⟨by simp [hlen], ?_⟩
          intro d hd
          rcases List.mem_cons.mp hd with rfl | hd
          · rw [hg]
            exact fun hh => Option.noConfusion hh
          · exact hres d hd

/-- C3 amended: `dependency_indexes` returns, in strictly increasing
global-target order, exactly the positions whose id occurs in the
target's dependencyIds — duplicates in dependencyIds collapse, the
order of dependencyIds is not preserved, and ids without a matching
target are silently absent; the dependency-record loop of the graph
builder, not the resolver, is what refuses to drop an id: its success
requires every dependency id to resolve in the target dict, one record
per id occurrence. -/
theorem c3_dependency_indexes_characterization (cm : Codemodel) (t : TargetModel) :
    (∀ i, i ∈ t.dependency_indexes cm ↔
       ∃ tm, cm.targets.get? i = some tm ∧
         t.json.dependencies.contains tm.json.id = true) ∧
    (t.dependency_indexes cm).Pairwise (· < ·) ∧
    (∀ pp dict si ds, mkDepsInner cm pp dict si t t.json.dependencies = .ok ds →
       ds.length = t.json.dependencies.length ∧
       ∀ did ∈ t.json.dependencies, dictGet dict did ≠ none) := by
  refine ⟨?_, dependencyIdxAux_pairwise _ _ _, fun pp dict si ds h =>
    mkDepsInner_ok cm pp dict si t _ ds h⟩
  intro i
  unfold TargetModel.dependency_indexes
  rw [dependencyIdxAux_mem]
  constructor
  · rintro ⟨k, tm, hk, rfl, hc⟩
    exact ⟨tm, by simpa using hk, hc⟩
  · rintro ⟨tm, hk, hc⟩
    exact ⟨i, tm, hk, by omega, hc⟩

/-- Witness for C3 amended at `cmDup` and its target `c`: the record
loop run there succeeds with one record per id occurrence, while the
resolver's list stays strictly increasing. -/
theorem c3_witness :
    ((mkDepsInner cmDup true (targetsDict cmDup) 1 tgtDup
        tgtDup.json.dependencies).toOption.getD []).length =
      tgtDup.json.dependencies.length ∧
    (tgtDup.dependency_indexes cmDup).Pairwise (· < ·) :=
  ⟨((c3_dependency_indexes_characterization cmDup tgtDup).2.2 true (targetsDict cmDup) 1
      ((mkDepsInner cmDup true (targetsDict cmDup) 1 tgtDup
        tgtDup.json.dependencies).toOption.getD []) rfl).1,
   (c3_dependency_indexes_characterization cmDup tgtDup).2.1⟩

/-- The classifier's successful result does not depend on which targets
were placed: placement only decides whether the destination's node
checks run again. -/
theorem classifyStep_placed_irrelevant (cm : Codemodel) (pl1 pl2 frequent : List Nat)
    (ms : List (Nat × Nat)) (st : ClassifierState) (d : Dependence)
    (st1 st2 : ClassifierState)
    (h1 : classifyStep cm pl1 frequent ms st d = .ok st1)
    (h2 : classifyStep cm pl2 frequent ms st d = .ok st2) : st1 = st2 := by
  rcases classifyStep_cases cm pl1 frequent ms st d st1 h1 with
    ⟨ha, mk, hml, e1⟩ | ⟨ha, hfd, proj, hpj, (⟨hin, e1⟩ | ⟨hin, e1⟩)⟩ | ⟨ha, hfd, e1⟩ <;>
  rcases classifyStep_cases cm pl2 frequent ms st d st2 h2 with
    ⟨hb, mk2, hml2, e2⟩ | ⟨hb, hfd2, proj2, hpj2, (⟨hin2, e2⟩ | ⟨hin2, e2⟩)⟩ |
      ⟨hb, hfd2, e2⟩ <;>
  subst e1 <;> subst e2 <;> simp_all

/-- Whole-loop version of the previous lemma. -/
theorem classifyAll_placed_irrelevant (cm : Codemodel) (frequent : List Nat)
    (ms : List (Nat × Nat)) :
    ∀ ds st pl1 pl2 st1 st2, classifyAll cm pl1 frequent ms ds st = .ok st1 →
      classifyAll cm pl2 frequent ms ds st = .ok st2 → st1 = st2 := by
  intro ds
  induction ds with
  | nil =>
    intro st pl1 pl2 st1 st2 h1 h2
    unfold classifyAll at h1 h2
    injection h1 with h1
    injection h2 with h2
    subst h1
    subst h2
    rfl
  | cons d rest ih =>
    intro st pl1 pl2 st1 st2 h1 h2
    unfold classifyAll at h1 h2
    split at h1
    next e hs1 => exact Except.noConfusion h1
    next sa hs1 =>
      split at h2
      next e hs2 => exact Except.noConfusion h2
      next sb hs2 =>
        have hab := classifyStep_placed_irrelevant cm pl1 pl2 frequent ms st d sa sb hs1 hs2
        subst hab
        exact ih sa pl1 pl2 st1 st2 h1 h2

/-- Inserting a key makes it present. -/
theorem dictInsert_hasKey_self (d : TargetsDict) (k : String) (v : Nat × TargetModel) :
    dictHasKey (dictInsert d k v) k = true := by
  induction d with
  | nil => simp [dictInsert, dictHasKey]
  | cons e rest ih =>
    obtain ⟨k', v'⟩ := e
    unfold dictInsert
    by_cases hk : (k' == k) = true
    · rw [if_pos hk]
      simp [dictHasKey]
    · rw [if_neg hk]
      simp only [dictHasKey, List.any_cons] at ih ⊢
      simp [ih]

/-- Inserting another key keeps present keys present. -/
theorem dictInsert_hasKey_mono (d : TargetsDict) (k : String) (v : Nat × TargetModel)
    (k2 : String) (h : dictHasKey d k2 = true) :
    dictHasKey (dictInsert d k v) k2 = true := by
  induction d with
  | nil => simp [dictHasKey] at h
  | cons e rest ih =>
    obtain ⟨k', v'⟩ := e
    unfold dictInsert
    by_cases hk : (k' == k) = true
    · rw [if_pos hk]
      have : k' = k := eq_of_beq hk
      subst this
      simpa [dictHasKey, List.any_cons] using h
    · rw [if_neg hk]
      simp only [dictHasKey, List.any_cons] at h ih ⊢
      rcases (Bool.or_eq_true _ _).mp h with h | h
      · simp [h]
      · simp [ih h]

/-- The dict-building loop keeps present keys present. -/
theorem targetsDictAux_hasKey_mono (k : String) :
    ∀ (l : List TargetModel) (i : Nat) (d : TargetsDict),
      dictHasKey d k = true → dictHasKey (targetsDictAux l i d) k = true := by
  intro l
  induction l with
  | nil =>
    intro i d h
    exact h
  | cons t rest ih =>
    intro i d h
    unfold targetsDictAux
    exact ih (i + 1) _ (dictInsert_hasKey_mono d t.json.id (i, t) k h)

/-- Every enumerated target's id is a key of the finished dict. -/
theorem targetsDictAux_hasKey_of_mem :
    ∀ (l : List TargetModel) (i : Nat) (d : TargetsDict) (t : TargetModel), t ∈ l →
      dictHasKey (targetsDictAux l i d) t.json.id = true := by
  intro l
  induction l with
  | nil =>
    intro i d t ht
    simp at ht
  | cons t0 rest ih =>
    intro i d t ht
    unfold targetsDictAux
    rcases List.mem_cons.mp ht with rfl | ht
    · exact targetsDictAux_hasKey_mono t.json.id rest (i + 1) _
        (dictInsert_hasKey_self d t.json.id (i, t))
    · exact ih (i + 1) _ t ht

/-- Every placed node's enumeration index is at least the running
index. -/
theorem placeNodesAux_lb (cm : Codemodel) (sT sN : String) (m : String → String → Bool) :
    ∀ l i ps, placeNodesAux cm sT sN m l i = .ok ps → ∀ p ∈ ps, i ≤ p.tgtIdx := by
  intro l
  induction l with
  | nil =>
    intro i ps h p hp
    unfold placeNodesAux at h
    injection h with h
    subst h
    simp at hp
  | cons t rest ih =>
    intro i ps h p hp
    unfold placeNodesAux at h
    split at h
    next hpr => exact Except.noConfusion h
    next v hpr =>
      split at h
      next hdr => exact Except.noConfusion h
      next v2 hdr =>
        split at h
        next hskip => exact Nat.le_of_succ_le (ih (i + 1) ps h p hp)
        next hskip =>
          split at h
          next e h3 => exact Except.noConfusion h
          next u h3 =>
            split at h
            next e h4 => exact Except.noConfusion h
            next ps' h4 =>
              injection h with h
              subst h
              cases hp with
              | head => exact Nat.le_refl _
              | tail _ hp => exact Nat.le_of_succ_le (ih (i + 1) ps' h4 p hp)

/-- A target that the skip patterns match is never placed: no placed
node carries its enumeration index. -/
theorem placeNodesAux_skip_not_placed (cm : Codemodel) (sT sN : String)
    (m : String → String → Bool) :
    ∀ l i ps, placeNodesAux cm sT sN m l i = .ok ps →
      ∀ n t, l.get? n = some t → skipTarget sT sN m t = true →
        ∀ p ∈ ps, p.tgtIdx ≠ i + n := by
  intro l
  induction l with
  | nil =>
    intro i ps h n t hn
    simp at hn
  | cons t0 rest ih =>
    intro i ps h n t hn hskip p hp
    unfold placeNodesAux at h
    split at h
    next hpr => exact Except.noConfusion h
    next v hpr =>
      split at h
      next hdr => exact Except.noConfusion h
      next v2 hdr =>
        split at h
        next hsk =>
          cases n with
          | zero =>
            have := placeNodesAux_lb cm sT sN m rest (i + 1) ps h p hp
            omega
          | succ n' =>
            have := ih (i + 1) ps h n' t (by simpa using hn) hskip p hp
            omega
        next hsk =>
          split at h
          next e h3 => exact Except.noConfusion h
          next u h3 =>
            split at h
            next e h4 => exact Except.noConfusion h
            next ps' h4 =>
              injection h with h
              subst h
              cases n with
              | zero =>
                injection hn with hn
                subst hn
                exact absurd hskip hsk
              | succ n' =>
                cases hp with
                | head =>
                  show i ≠ i + (n' + 1)
                  omega
                | tail _ hp =>
                  have := ih (i + 1) ps' h4 n' t (by simpa using hn) hskip p hp
                  omega

/-- C10: a target matched by the skip patterns is excluded only from
node placement.  It is still a key of the target dict, and the run's
dependency records, frequent set, markers, annotations and edges are
identical to those of the same run without skip patterns; only its node
placement is missing. -/
theorem c10_skip_only_placement (cm : Codemodel) (sT sN : String)
    (m : String → String → Bool) (pp : Bool) (th : Nat) (out out0 : GraphOut)
    (i : Nat) (t : TargetModel)
    (h : buildConfigGraph cm sT sN m pp th = .ok out)
    (h0 : buildConfigGraph cm "" "" m pp th = .ok out0)
    (ht : cm.targets.get? i = some t)
    (hskip : skipTarget sT sN m t = true) :
    out.dependencies = out0.dependencies ∧
    out.frequent = out0.frequent ∧
    out.markers = out0.markers ∧
    out.annots = out0.annots ∧
    out.edges = out0.edges ∧
    dictHasKey (targetsDict cm) t.json.id = true ∧
    ∀ p ∈ out.placed, p.tgtIdx ≠ i := by
  obtain ⟨placed, deps, ms, st, hp, hd, hm, hc, he⟩ := buildConfigGraph_ok h
  obtain ⟨placed0, deps0, ms0, st0, hp0, hd0, hm0, hc0, he0⟩ := buildConfigGraph_ok h0
  subst he
  subst he0
  have hdeq : deps = deps0 := by
    have h2 := hd.symm.trans hd0
    injection h2
  subst hdeq
  have hmeq : ms = ms0 := by
    have h2 := hm.symm.trans hm0
    injection h2
  subst hmeq
  have hseq : st = st0 := classifyAll_placed_irrelevant cm (ms.map (fun e => e.1)) ms deps
    ⟨[], [], []⟩ (placed.map (fun p => p.tgtIdx)) (placed0.map (fun p => p.tgtIdx))
    st st0 hc hc0
  subst hseq
  refine ⟨rfl, rfl, rfl, rfl, rfl, ?_, ?_⟩
  · exact targetsDictAux_hasKey_of_mem cm.targets 0 [] t (List.get?_mem ht)
  · intro p hp2
    have h2 := placeNodesAux_skip_not_placed cm sT sN m cm.targets 0 placed hp i t ht
      hskip p hp2
    simpa using h2

/-- Witness for C10 at `cmSkip`, skipping its UTILITY target. -/
theorem c10_witness :
    cmSkipOut.dependencies = cmSkipOut0.dependencies ∧
    cmSkipOut.frequent = cmSkipOut0.frequent ∧
    cmSkipOut.markers = cmSkipOut0.markers ∧
    cmSkipOut.annots = cmSkipOut0.annots ∧
    cmSkipOut.edges = cmSkipOut0.edges ∧
    dictHasKey (targetsDict cmSkip) (mkTgt 0 0 "u" "u" "UTILITY" []).json.id = true ∧
    ∀ p ∈ cmSkipOut.placed, p.tgtIdx ≠ 0 :=
  c10_skip_only_placement cmSkip "UTILITY" "" eqMatch true 5 cmSkipOut cmSkipOut0 0
    (mkTgt 0 0 "u" "u" "UTILITY" []) rfl rfl rfl rfl

end CmakeGraph
